import Mathlib

/-!
Verification of the SQL training assistant (`src/app.py`).

The development shallowly embeds the program's core logic:

* `_format_sql_query`   — whitespace collapsing plus SQL-keyword capitalization
  (`' '.join(query.split())` followed by eight case-insensitive,
  word-bounded `re.sub` replacements);
* `get_schema_prompt`   — schema-description rendering over the two-industry catalog;
* `generate_stakeholder_question` — parsing of the two-field
  (`QUESTION: `/`SQL: `) generation response and its error sentinel;
* `validate_sql` / `submitQuery`  — the validation path, its progress-record
  updates in `user_stats`, and the surrounding `main` logic;
* session-state operations (`changeDifficulty`, question regeneration).

Modelling conventions: character classes (whitespace, word characters,
case-insensitive matching) follow Python's semantics restricted to ASCII;
the external generative-text service is an oracle argument (its response,
or a marker for a transport/JSON failure); Python floats are modelled as
exact rationals; Python exceptions caught by the code's `try/except`
blocks are modelled by the value each handler returns.
-/

/-- Whitespace recognised by Python's `str.split`/`str.strip` (ASCII range). -/
def pySpace (c : Char) : Bool :=
  c == ' ' || c == '\t' || c == '\n' || c == '\r' || c == '\x0b' || c == '\x0c' ||
  c == '\x1c' || c == '\x1d' || c == '\x1e' || c == '\x1f'

/-- Word characters of the regex `\b` boundary (`[A-Za-z0-9_]`, ASCII model of `\w`). -/
def isWordChar (c : Char) : Bool :=
  ('A' ≤ c && c ≤ 'Z') || ('a' ≤ c && c ≤ 'z') || ('0' ≤ c && c ≤ '9') || c == '_'

/-- ASCII lowercasing of a single character (identity elsewhere). -/
def lowChar : Char → Char
  | 'A' => 'a' | 'B' => 'b' | 'C' => 'c' | 'D' => 'd' | 'E' => 'e' | 'F' => 'f'
  | 'G' => 'g' | 'H' => 'h' | 'I' => 'i' | 'J' => 'j' | 'K' => 'k' | 'L' => 'l'
  | 'M' => 'm' | 'N' => 'n' | 'O' => 'o' | 'P' => 'p' | 'Q' => 'q' | 'R' => 'r'
  | 'S' => 's' | 'T' => 't' | 'U' => 'u' | 'V' => 'v' | 'W' => 'w' | 'X' => 'x'
  | 'Y' => 'y' | 'Z' => 'z'
  | c => c

/-- ASCII uppercasing of a single character (identity elsewhere). -/
def upChar : Char → Char
  | 'a' => 'A' | 'b' => 'B' | 'c' => 'C' | 'd' => 'D' | 'e' => 'E' | 'f' => 'F'
  | 'g' => 'G' | 'h' => 'H' | 'i' => 'I' | 'j' => 'J' | 'k' => 'K' | 'l' => 'L'
  | 'm' => 'M' | 'n' => 'N' | 'o' => 'O' | 'p' => 'P' | 'q' => 'Q' | 'r' => 'R'
  | 's' => 'S' | 't' => 'T' | 'u' => 'U' | 'v' => 'V' | 'w' => 'W' | 'x' => 'X'
  | 'y' => 'Y' | 'z' => 'Z'
  | c => c

/-- Case-insensitive match of text character `c` against pattern character `k`
(the pattern characters here are uppercase letters or a space). -/
def ciChar (k c : Char) : Bool := c == k || c == lowChar k

/-- Does `p` match the beginning of `s`, character-wise and case-insensitively? -/
def matchesPat : List Char → List Char → Bool
  | [], _ => true
  | _ :: _, [] => false
  | k :: ks, c :: cs => ciChar k c && matchesPat ks cs

/-- Does `p` occur literally (case-sensitively) at the beginning of `s`? -/
def leadsWith : List Char → List Char → Bool
  | [], _ => true
  | _ :: _, [] => false
  | p :: ps, c :: cs => p == c && leadsWith ps cs

/-- Split at the first literal occurrence of `sep` in `s`, returning the text
before it and the text after it; `none` when `sep` does not occur. -/
def splitFirst (sep : List Char) : List Char → Option (List Char × List Char)
  | [] => none
  | c :: cs =>
    if leadsWith sep (c :: cs) then some ([], (c :: cs).drop sep.length)
    else
      match splitFirst sep cs with
      | some (pre, post) => some (c :: pre, post)
      | none => none

/-- Python `str.strip()` on a character list (ASCII whitespace model). -/
def pyStripL (s : List Char) : List Char :=
  ((s.dropWhile pySpace).reverse.dropWhile pySpace).reverse

/-- Python `str.strip()`. -/
def pyStrip (s : String) : String := String.mk (pyStripL s.data)

/-- Python `str.split()` (split on whitespace runs, dropping empty pieces). -/
def wordsOf (s : List Char) : List (List Char) :=
  match s with
  | [] => []
  | c :: cs =>
    if pySpace c then wordsOf cs
    else (c :: cs.takeWhile (fun x => !pySpace x)) :: wordsOf (cs.dropWhile (fun x => !pySpace x))
termination_by s.length
decreasing_by
  · simp only [List.length_cons]; omega
  · have h : (cs.dropWhile (fun x => !pySpace x)).length ≤ cs.length :=
      (List.dropWhile_sublist _).length_le
    simp only [List.length_cons]; omega

/-- Join words with single spaces (`' '.join(...)`). -/
def joinSp : List (List Char) → List Char
  | [] => []
  | [w] => w
  | w :: ws => w ++ ' ' :: joinSp ws

/-- Python `' '.join(query.split())` — whitespace collapsing. -/
def collapseWs (s : List Char) : List Char := joinSp (wordsOf s)

/-- The regex `\b` test before the first pattern character: satisfied when the
previous character (tracked as `pw`, "previous is a word character") is not a
word character.  The test after the last pattern character: the next character
is absent or not a word character. -/
def boundaryAfterOk : List Char → Bool
  | [] => true
  | c :: _ => !isWordChar c

/-- One pass of `re.sub(rf'\b{keyword}\b', keyword, query, flags=re.IGNORECASE)`
for the non-empty keyword `k0 :: ktl`: scan left to right; at each position
where the keyword matches case-insensitively between word boundaries, emit the
keyword and resume after the match; otherwise emit the character and advance.
`pw` records whether the previous character of the scanned text is a word
character (initially false: start of string). -/
def sub1 (k0 : Char) (ktl : List Char) : Bool → List Char → List Char
  | _, [] => []
  | true, c :: cs => c :: sub1 k0 ktl (isWordChar c) cs
  | false, c :: cs =>
    if matchesPat (k0 :: ktl) (c :: cs) then
      if boundaryAfterOk ((c :: cs).drop (k0 :: ktl).length) then
        (k0 :: ktl) ++ sub1 k0 ktl (isWordChar (ktl.getLastD k0)) ((c :: cs).drop (k0 :: ktl).length)
      else
        c :: sub1 k0 ktl (isWordChar c) cs
    else
      c :: sub1 k0 ktl (isWordChar c) cs
termination_by _pw s => s.length
decreasing_by
  · simp only [List.length_cons]; omega
  · simp only [List.length_drop, List.length_cons]; omega
  · simp only [List.length_cons]; omega
  · simp only [List.length_cons]; omega

/-- The keyword list of `_format_sql_query`, in source order. -/
def sqlKeywords : List String :=
  ["SELECT", "FROM", "WHERE", "JOIN", "ON", "GROUP BY", "ORDER BY", "HAVING"]

/-- Apply one keyword substitution (no-op for an empty keyword, which does not occur). -/
def subKeyword (kw : List Char) (s : List Char) : List Char :=
  match kw with
  | [] => s
  | k :: ks => sub1 k ks false s

/-- The keyword-capitalization loop of `_format_sql_query`. -/
def capitalizeKeywords (s : List Char) : List Char :=
  sqlKeywords.foldl (fun acc kw => subKeyword kw.data acc) s

/-- `SQLTrainer._format_sql_query`: collapse whitespace, then capitalize the
eight SQL keywords case-insensitively at word boundaries. -/
def _format_sql_query (q : String) : String :=
  String.mk (capitalizeKeywords (collapseWs q.data))

/-- Python `str.title()` (ASCII model): uppercase each letter that follows a
non-letter, lowercase every other letter. -/
def pyTitleAux : Bool → List Char → List Char
  | _, [] => []
  | prevAlpha, c :: cs =>
    if ('A' ≤ c && c ≤ 'Z') || ('a' ≤ c && c ≤ 'z') then
      (if prevAlpha then lowChar c else upChar c) :: pyTitleAux true cs
    else
      c :: pyTitleAux false cs

/-- Python `str.title()`. -/
def pyTitle (s : String) : String := String.mk (pyTitleAux false s.data)

/-- Per-industry schema metadata (the nested dict literals of `SQLTrainer.__init__`). -/
structure IndustrySchema where
  schema_url : String
  description : String
  tables : List (String × List String)
  relationships : List String
  sample_questions : List String
deriving DecidableEq

/-- `SQLTrainer.industry_schemas`, verbatim from the source (insertion order kept). -/
def industry_schemas : List (String × IndustrySchema) :=
  [("logistics",
    { schema_url := "https://claude.site/artifacts/bf15ac3a-7ad0-4693-80ab-0bdcfa1cd2ae"
      description := "Logistics and warehouse management system tracking inventory, shipments, and carriers."
      tables :=
        [("warehouses", ["warehouse_id", "name", "location", "capacity"]),
         ("inventory", ["item_id", "warehouse_id", "product_name", "quantity", "reorder_point"]),
         ("shipments", ["shipment_id", "origin_warehouse", "destination", "status", "carrier_id"]),
         ("carriers", ["carrier_id", "name", "service_level", "cost_per_mile"])]
      relationships :=
        ["inventory.warehouse_id -> warehouses.warehouse_id",
         "shipments.origin_warehouse -> warehouses.warehouse_id",
         "shipments.carrier_id -> carriers.carrier_id"]
      sample_questions :=
        ["Show me which warehouses are below their reorder points for any items.",
         "List the top 3 carriers by number of shipments.",
         "Calculate the total inventory quantity by warehouse."] }),
   ("healthcare",
    { schema_url := "https://claude.site/artifacts/96e82497-f107-4e25-97c1-220b727b1c3b"
      description := "Healthcare management system tracking patients, appointments, and treatments."
      tables :=
        [("patients", ["patient_id", "name", "dob", "insurance_id"]),
         ("appointments", ["appointment_id", "patient_id", "doctor_id", "date", "status"]),
         ("doctors", ["doctor_id", "name", "specialty", "department"]),
         ("treatments", ["treatment_id", "patient_id", "doctor_id", "diagnosis", "date"])]
      relationships :=
        ["appointments.patient_id -> patients.patient_id",
         "appointments.doctor_id -> doctors.doctor_id",
         "treatments.patient_id -> patients.patient_id"]
      sample_questions :=
        ["Show me the doctors with the most appointments this month.",
         "List patients who have had more than 3 treatments.",
         "Calculate the average number of appointments per doctor."] })]

/-- Python `self.industry_schemas.get(industry)`. -/
def lookupSchema (industry : String) : Option IndustrySchema :=
  (industry_schemas.find? (fun p => p.1 == industry)).map (fun p => p.2)

/-- `SQLTrainer.get_schema_prompt`: build the schema prompt by string
accumulation, exactly mirroring the source's `prompt += ...` loops; unknown
industries yield the plain text `"Industry not found"`. -/
def get_schema_prompt (industry : String) : String :=
  match lookupSchema industry with
  | none => "Industry not found"
  | some schema =>
    let prompt := "Database Schema for " ++ pyTitle industry ++ ":\n\n"
    let prompt := prompt ++ "Description: " ++ schema.description ++ "\n\n"
    let prompt := prompt ++ "Tables:\n"
    let prompt := schema.tables.foldl
      (fun acc tc =>
        let acc := acc ++ "- " ++ tc.1 ++ "\n"
        tc.2.foldl (fun acc2 col => acc2 ++ "  └─ " ++ col ++ "\n") acc)
      prompt
    let prompt := prompt ++ "\nRelationships:\n"
    let prompt := schema.relationships.foldl (fun acc rel => acc ++ "- " ++ rel ++ "\n") prompt
    prompt

/-- Parse a generation response against the two regexes of
`generate_stakeholder_question`:
`re.search('QUESTION: (.*?)\nSQL:', content, re.DOTALL)` — text between the
first `"QUESTION: "` and the first subsequent `"\nSQL:"` — and
`re.search('SQL: (.*?)$', content, re.DOTALL)` — text after the first
`"SQL: "` anywhere in the response.  Both captures are stripped.  `none`
models the `AttributeError` raised by `.group` on a failed search. -/
def parseGeneration (content : String) : Option (String × String) :=
  match splitFirst "QUESTION: ".data content.data with
  | none => none
  | some (_, afterQ) =>
    match splitFirst "\nSQL:".data afterQ with
    | none => none
    | some (beforeSql, _) =>
      match splitFirst "SQL: ".data content.data with
      | none => none
      | some (_, afterS) => some (String.mk (pyStripL beforeSql), String.mk (pyStripL afterS))

/-- `SQLTrainer.generate_stakeholder_question`, as a function of the service
response (`none` = transport error raised by the client call).  Every failure
is caught by the function's `except` block, which returns the sentinel pair
`("Error generating question", "")`. -/
def generate_stakeholder_question (response : Option String) : String × String :=
  match response with
  | none => ("Error generating question", "")
  | some content =>
    match parseGeneration content with
    | some qs => qs
    | none => ("Error generating question", "")

/-- The per-session state kept in `st.session_state` by `main`. -/
structure TrainerSession where
  industry : Option String
  difficulty : String
  current_question : Option String
  current_solution : Option String
deriving DecidableEq

/-- Python truthiness of an optional string (`None` and `""` are falsy). -/
def pyTruthyOpt : Option String → Bool
  | none => false
  | some s => s ≠ ""

/-- Abstract phases of the session, read off the stored state the way `main`
branches on it (`if not st.session_state.industry`, `not ...current_question`). -/
inductive Phase where
  | NoIndustry
  | AwaitingQuestion
  | QuestionReady
deriving DecidableEq

/-- The phase `main` treats the session as being in. -/
def sessionPhase (s : TrainerSession) : Phase :=
  if !pyTruthyOpt s.industry then Phase.NoIndustry
  else if !pyTruthyOpt s.current_question then Phase.AwaitingQuestion
  else Phase.QuestionReady

/-- The difficulty-slider handler in `main`: when the selected value differs
from the stored one, store it and clear `current_question` (the solution is
left untouched); otherwise nothing happens. -/
def changeDifficulty (s : TrainerSession) (newDifficulty : String) : TrainerSession :=
  if newDifficulty ≠ s.difficulty then
    { s with difficulty := newDifficulty, current_question := none }
  else s

/-- The question-generation step of `main`: call
`generate_stakeholder_question` and store both components unconditionally. -/
def mainGenerateStep (s : TrainerSession) (response : Option String) : TrainerSession :=
  let qs := generate_stakeholder_question response
  { s with current_question := some qs.1, current_solution := some qs.2 }

/-- JSON values as they matter to `validate_sql` (the judgement dict's fields). -/
inductive JVal where
  | jbool : Bool → JVal
  | jstr : String → JVal
  | jlist : List String → JVal
  | jnum : Int → JVal
  | jnull : JVal
deriving DecidableEq

/-- Python truthiness of a JSON value. -/
def pyTruthy : JVal → Bool
  | .jbool b => b
  | .jstr s => s ≠ ""
  | .jlist xs => xs ≠ []
  | .jnum n => n ≠ 0
  | .jnull => false

/-- Dictionary lookup (`d[k]`, `none` modelling `KeyError`). -/
def lookupJ (d : List (String × JVal)) (k : String) : Option JVal :=
  (d.find? (fun p => p.1 == k)).map (fun p => p.2)

/-- One entry of `user_stats['questions_history']`. -/
structure HistoryEntry where
  timestamp : String
  question : String
  user_query : String
  correct : JVal
deriving DecidableEq

/-- `st.session_state.user_stats`. -/
structure UserStats where
  total_attempts : Nat
  correct_answers : Nat
  questions_history : List HistoryEntry
deriving DecidableEq

/-- The stats installed by `SQLTrainer.__init__`. -/
def initStats : UserStats := { total_attempts := 0, correct_answers := 0, questions_history := [] }

/-- The feedback dict built by `validate_sql`'s `except` handler. -/
def errorFeedback : List (String × JVal) :=
  [("is_correct", JVal.jbool false),
   ("feedback", JVal.jstr "Error occurred during validation"),
   ("hints", JVal.jlist []),
   ("performance_notes", JVal.jstr "")]

/-- Outcome of the remote judgement call inside `validate_sql`:
the transport call raised; it returned text that `json.loads` rejects;
it returned JSON that is not an object (subscripting raises `TypeError`);
or it returned a JSON object, given by its fields. -/
inductive RemoteOutcome where
  | transportError
  | invalidJson
  | nonDict
  | dict : List (String × JVal) → RemoteOutcome
deriving DecidableEq

/-- `SQLTrainer.validate_sql`, as a function of the remote outcome.  Mirrors
the source's `try` block statement by statement: parse the response, increment
`total_attempts`, test `feedback_dict['is_correct']` (a `KeyError`/`TypeError`
here is caught AFTER the increment), conditionally increment
`correct_answers`, append one history entry, and return the parsed dict; any
caught exception returns `errorFeedback` with whatever updates already ran. -/
def validate_sql (stats : UserStats) (query question timestamp : String)
    (outcome : RemoteOutcome) : List (String × JVal) × UserStats :=
  match outcome with
  | .transportError => (errorFeedback, stats)
  | .invalidJson => (errorFeedback, stats)
  | .nonDict =>
    (errorFeedback, { stats with total_attempts := stats.total_attempts + 1 })
  | .dict d =>
    let stats1 := { stats with total_attempts := stats.total_attempts + 1 }
    match lookupJ d "is_correct" with
    | none => (errorFeedback, stats1)
    | some v =>
      let stats2 :=
        if pyTruthy v then { stats1 with correct_answers := stats1.correct_answers + 1 }
        else stats1
      let entry : HistoryEntry :=
        { timestamp := timestamp, question := question, user_query := query, correct := v }
      let stats3 := { stats2 with questions_history := stats2.questions_history ++ [entry] }
      (d, stats3)

/-- Result of the submit-button handler in `main`. -/
structure SubmitResult where
  remoteCalled : Bool
  feedback : Option (List (String × JVal))
  stats : UserStats
deriving DecidableEq

/-- The submit-button handler in `main`: `if user_query:` guards the only call
to `validate_sql`; an empty submission does nothing at all. -/
def submitQuery (stats : UserStats) (query question timestamp : String)
    (outcome : RemoteOutcome) : SubmitResult :=
  if query = "" then { remoteCalled := false, feedback := none, stats := stats }
  else
    let r := validate_sql stats query question timestamp outcome
    { remoteCalled := true, feedback := some r.1, stats := r.2 }

/-- One submit/validate interaction, as it updates the stored stats. -/
def sessionStep (st : UserStats) (inp : String × String × String × RemoteOutcome) : UserStats :=
  (submitQuery st inp.1 inp.2.1 inp.2.2.1 inp.2.2.2).stats

/-- Run a sequence of submissions (query, question, timestamp, remote outcome)
from the freshly initialized stats. -/
def sessionRun (inputs : List (String × String × String × RemoteOutcome)) : UserStats :=
  inputs.foldl sessionStep initStats

/-- The accuracy computation of `render_progress_tracker` (Python floats
modelled as exact rationals):
`(correct_answers / total_attempts * 100) if total_attempts > 0 else 0`. -/
def accuracy (stats : UserStats) : ℚ :=
  if stats.total_attempts > 0 then
    (stats.correct_answers : ℚ) / (stats.total_attempts : ℚ) * 100
  else 0

/-- Does the pattern occur (case-insensitively) anywhere in the text? -/
def hasCIMatch (pat : List Char) : List Char → Bool
  | [] => matchesPat pat []
  | c :: cs => matchesPat pat (c :: cs) || hasCIMatch pat cs

/-- Modelled from the spec: the local syntax pre-check of
`SubmissionValidator.validate` — the submission must be non-empty and contain,
case-insensitively, both a `SELECT` token and a `FROM` token.  This check is
absent from the code; the definition exists only to state the claim. -/
def specSyntaxPrecheck (q : String) : Bool :=
  q ≠ "" && hasCIMatch "SELECT".data q.data && hasCIMatch "FROM".data q.data

/-- Modelled from the spec: the table list of `renderPrompt`, one block per
table in the descriptor's insertion order, each column on its own line. -/
def renderTablesSpec (tables : List (String × List String)) : String :=
  String.join (tables.map (fun tc =>
    "- " ++ tc.1 ++ "\n" ++ String.join (tc.2.map (fun col => "  └─ " ++ col ++ "\n"))))

/-- Modelled from the spec: the relationship list of `renderPrompt`, one line
per relationship in the descriptor's insertion order. -/
def renderRelsSpec (relationships : List String) : String :=
  String.join (relationships.map (fun rel => "- " ++ rel ++ "\n"))

/-- All characters occurring in the eight keyword patterns. -/
def patChars : List Char := "SELECTFROMWHEREJOINONGROUP BYORDER BYHAVING".data

/-- One character of a substitution output against the corresponding input
character: either unchanged, or a pattern character that the input character
matched case-insensitively. -/
def SimC (c d : Char) : Prop := d = c ∨ ∃ k, k ∈ patChars ∧ ciChar k c = true ∧ d = k

/-- Pointwise lifting of `SimC`: relates a string to any keyword-substitution
image of it (same length, characters only re-cased to pattern characters). -/
inductive Sim : List Char → List Char → Prop where
  | nil : Sim [] []
  | cons {c d : Char} {s t : List Char} : SimC c d → Sim s t → Sim (c :: s) (d :: t)

theorem submitQuery_counters (stats : UserStats) (q qu ts : String) (o : RemoteOutcome)
    (h : stats.correct_answers ≤ stats.total_attempts) :
    (submitQuery stats q qu ts o).stats.correct_answers ≤
      (submitQuery stats q qu ts o).stats.total_attempts := by
  unfold submitQuery
  split
  · exact h
  · unfold validate_sql
    cases o with
    | transportError => exact h
    | invalidJson => exact h
    | nonDict => simp; omega
    | dict d =>
      cases hl : lookupJ d "is_correct" with
      | none => simp only [hl]; omega
      | some v =>
        simp only [hl]
        by_cases hv : pyTruthy v <;> simp [hv] <;> omega

theorem sessionRun_counters :
    ∀ (inputs : List (String × String × String × RemoteOutcome)) (st : UserStats),
      st.correct_answers ≤ st.total_attempts →
      (inputs.foldl sessionStep st).correct_answers ≤ (inputs.foldl sessionStep st).total_attempts := by
  intro inputs
  induction inputs with
  | nil => intro st h; exact h
  | cons inp rest ih =>
    intro st h
    exact ih (sessionStep st inp) (submitQuery_counters st _ _ _ _ h)

/-- C3: starting from the freshly initialized session stats, after every
sequence of submit/validate interactions the progress counters satisfy
`0 ≤ correct_answers ≤ total_attempts`. -/
theorem C3_progress_invariant (inputs : List (String × String × String × RemoteOutcome)) :
    0 ≤ (sessionRun inputs).correct_answers ∧
    (sessionRun inputs).correct_answers ≤ (sessionRun inputs).total_attempts :=
  ⟨Nat.zero_le _, sessionRun_counters inputs initStats (Nat.le_refl 0)⟩

/-- C4: the program violates the all-or-nothing progress update.  When the
remote judgement call completes and returns the valid JSON object text with no
`is_correct` field (concretely, an empty object), `validate_sql` increments
`total_attempts`, then the key lookup raises, the handler returns the error
feedback, and neither `correct_answers` nor the history is touched — a
partially applied progress update. -/
theorem C4_partial_update :
    validate_sql initStats "SELECT 1" "Q" "2024-01-01 00:00:00" (RemoteOutcome.dict []) =
      (errorFeedback,
        { total_attempts := 1, correct_answers := 0, questions_history := [] }) := rfl

/-- C1 fails on the code: for a generation response lacking the `SQL:` field,
`generate_stakeholder_question` does not raise any `GenerationError` — it
returns the sentinel pair `("Error generating question", "")` (a question with
an empty solution field), and `main` then stores that sentinel, so
`current_question` does NOT keep its prior value. -/
theorem C1_cex :
    generate_stakeholder_question (some "QUESTION: Which warehouses are full?\nNothing else") =
      ("Error generating question", "") ∧
    (mainGenerateStep
        { industry := some "logistics", difficulty := "medium",
          current_question := some "Prior question", current_solution := some "SELECT 1" }
        (some "QUESTION: Which warehouses are full?\nNothing else")).current_question ≠
      some "Prior question" := by
  constructor
  · rfl
  · decide

/-- C1 (amended): whenever the response fails to parse against the
`QUESTION:`/`SQL:` two-field grammar (and likewise on a transport error),
`generate_stakeholder_question` returns the sentinel pair
`("Error generating question", "")` instead of raising, and the generation
step of `main` overwrites `current_question` with the sentinel text rather
than leaving it at its prior value. -/
theorem C1_amended (content : String) (s : TrainerSession)
    (h : parseGeneration content = none) :
    generate_stakeholder_question (some content) = ("Error generating question", "") ∧
    (mainGenerateStep s (some content)).current_question = some "Error generating question" ∧
    generate_stakeholder_question none = ("Error generating question", "") := by
  refine ⟨?_, ?_, rfl⟩
  · unfold generate_stakeholder_question
    simp only [h]
  · unfold mainGenerateStep generate_stakeholder_question
    simp only [h]

theorem C1_amended_witness :
    generate_stakeholder_question (some "QUESTION: only a question, no solution") =
      ("Error generating question", "") ∧
    (mainGenerateStep
        { industry := some "healthcare", difficulty := "easy",
          current_question := some "Old question", current_solution := some "SELECT *" }
        (some "QUESTION: only a question, no solution")).current_question =
      some "Error generating question" ∧
    generate_stakeholder_question none = ("Error generating question", "") :=
  C1_amended "QUESTION: only a question, no solution"
    { industry := some "healthcare", difficulty := "easy",
      current_question := some "Old question", current_solution := some "SELECT *" }
    (by decide)

/-- C2 fails on the code: the submission `"UPDATE t SET x=1"` is non-empty but
contains neither a `SELECT` nor a `FROM` token, yet the submit handler calls
the remote validator (there is no local pre-check anywhere in the code), and a
completed remote call increments `total_attempts` from 0 to 1. -/
theorem C2_cex :
    specSyntaxPrecheck "UPDATE t SET x=1" = false ∧
    submitQuery initStats "UPDATE t SET x=1" "List all warehouses." "2024-01-01 00:00:00"
        (RemoteOutcome.dict [("is_correct", JVal.jbool false)]) =
      { remoteCalled := true,
        feedback := some [("is_correct", JVal.jbool false)],
        stats :=
          { total_attempts := 1, correct_answers := 0,
            questions_history :=
              [{ timestamp := "2024-01-01 00:00:00", question := "List all warehouses.",
                 user_query := "UPDATE t SET x=1", correct := JVal.jbool false }] } } := by
  constructor
  · decide
  · rfl

/-- C2 (amended): the only local short-circuit in the code is `main`'s
`if user_query:` — an empty submission never reaches `validate_sql` (hence no
remote call, and the stats are untouched), while EVERY non-empty submission,
including ones with no `SELECT`/`FROM` token, triggers the remote call. -/
theorem C2_amended (stats : UserStats) (question ts : String) (o : RemoteOutcome) :
    submitQuery stats "" question ts o =
      { remoteCalled := false, feedback := none, stats := stats } ∧
    ∀ q : String, q ≠ "" → (submitQuery stats q question ts o).remoteCalled = true := by
  constructor
  · rfl
  · intro q hq
    unfold submitQuery
    simp [hq]

theorem C2_amended_witness :
    submitQuery initStats "" "Q" "ts" RemoteOutcome.transportError =
      { remoteCalled := false, feedback := none, stats := initStats } ∧
    (submitQuery initStats "UPDATE t SET x=1" "Q" "ts" RemoteOutcome.transportError).remoteCalled =
      true :=
  ⟨(C2_amended initStats "Q" "ts" RemoteOutcome.transportError).1,
   (C2_amended initStats "Q" "ts" RemoteOutcome.transportError).2 "UPDATE t SET x=1" (by decide)⟩

/-- C5 fails on the code: for an industry absent from the catalog,
`get_schema_prompt` does not raise any `UnknownIndustryError` — it returns the
ordinary text `"Industry not found"`. -/
theorem C5_cex : get_schema_prompt "finance" = "Industry not found" := rfl

/-- C5 (amended): for every industry absent from the schema catalog,
`get_schema_prompt` returns the sentinel text `"Industry not found"` instead
of failing. -/
theorem C5_amended (industry : String) (h : lookupSchema industry = none) :
    get_schema_prompt industry = "Industry not found" := by
  unfold get_schema_prompt
  rw [h]

theorem C5_amended_witness : get_schema_prompt "retail" = "Industry not found" :=
  C5_amended "retail" (by decide)

/-- C6 fails on the code: the remote judgement response whose text parses to
the JSON object with the single field `is_correct: true` does not conform to
the expected four-field judgement shape (`feedback`, `hints` and
`performance_notes` are missing), yet `validate_sql` does not convert it into
an `is_correct=false` feedback with an explanatory message — it returns the
nonconforming dict unchanged (its `is_correct` is `true` and it has no
`feedback` field at all) and records the attempt as correct. -/
theorem C6_cex :
    validate_sql initStats "SELECT 1" "Q" "2024-01-01 00:00:00"
        (RemoteOutcome.dict [("is_correct", JVal.jbool true)]) =
      ([("is_correct", JVal.jbool true)],
        { total_attempts := 1, correct_answers := 1,
          questions_history :=
            [{ timestamp := "2024-01-01 00:00:00", question := "Q",
               user_query := "SELECT 1", correct := JVal.jbool true }] }) ∧
    lookupJ [("is_correct", JVal.jbool true)] "feedback" = none := by
  constructor
  · rfl
  · rfl

/-- C6 (amended): `validate_sql` never raises, but its shape validation stops
at the `is_correct` lookup.  On a transport error, unparseable response text,
non-object JSON, or a JSON object lacking `is_correct`, it returns the error
feedback dict (`is_correct=false` with the explanatory message); any parsed
object that does carry an `is_correct` field — even one failing the expected
four-field judgement shape — is returned to the caller unchanged, with no
explanatory message added. -/
theorem C6_amended (stats : UserStats) (query question ts : String) (o : RemoteOutcome) :
    ((o = RemoteOutcome.transportError ∨ o = RemoteOutcome.invalidJson ∨
        o = RemoteOutcome.nonDict ∨
        ∃ d, o = RemoteOutcome.dict d ∧ lookupJ d "is_correct" = none) →
      (validate_sql stats query question ts o).1 = errorFeedback ∧
      lookupJ (validate_sql stats query question ts o).1 "is_correct" =
        some (JVal.jbool false) ∧
      lookupJ (validate_sql stats query question ts o).1 "feedback" =
        some (JVal.jstr "Error occurred during validation")) ∧
    (∀ d v, o = RemoteOutcome.dict d → lookupJ d "is_correct" = some v →
      (validate_sql stats query question ts o).1 = d) := by
  constructor
  · intro h
    have h1 : (validate_sql stats query question ts o).1 = errorFeedback := by
      rcases h with h | h | h | ⟨d, hd, hl⟩
      · subst h; rfl
      · subst h; rfl
      · subst h; rfl
      · subst hd; unfold validate_sql; simp only [hl]
    refine ⟨h1, ?_, ?_⟩ <;> rw [h1] <;> rfl
  · intro d v hd hv
    subst hd
    unfold validate_sql
    simp only [hv]

theorem C6_amended_witness :
    ((validate_sql initStats "SELECT 1" "Q" "ts" RemoteOutcome.transportError).1 =
        errorFeedback ∧
      lookupJ (validate_sql initStats "SELECT 1" "Q" "ts" RemoteOutcome.transportError).1
          "is_correct" = some (JVal.jbool false) ∧
      lookupJ (validate_sql initStats "SELECT 1" "Q" "ts" RemoteOutcome.transportError).1
          "feedback" = some (JVal.jstr "Error occurred during validation")) ∧
    (validate_sql initStats "SELECT 1" "Q" "ts"
        (RemoteOutcome.dict [("is_correct", JVal.jbool false)])).1 =
      [("is_correct", JVal.jbool false)] :=
  ⟨(C6_amended initStats "SELECT 1" "Q" "ts" RemoteOutcome.transportError).1 (Or.inl rfl),
   (C6_amended initStats "SELECT 1" "Q" "ts"
      (RemoteOutcome.dict [("is_correct", JVal.jbool false)])).2
      [("is_correct", JVal.jbool false)] (JVal.jbool false) rfl (by decide)⟩

/-- C7: changing the difficulty (to a value different from the stored one)
from a state that has an industry and a question present clears
`current_question` and puts the session in the `AwaitingQuestion` phase,
which is exactly the condition under which `main` regenerates a question. -/
theorem C7_change_difficulty (s : TrainerSession) (newD : String)
    (hchange : newD ≠ s.difficulty)
    (hind : pyTruthyOpt s.industry = true)
    (_hq : pyTruthyOpt s.current_question = true) :
    (changeDifficulty s newD).current_question = none ∧
    sessionPhase (changeDifficulty s newD) = Phase.AwaitingQuestion := by
  unfold changeDifficulty
  rw [if_pos hchange]
  refine ⟨rfl, ?_⟩
  unfold sessionPhase
  have h2 : pyTruthyOpt (none : Option String) = false := rfl
  simp [hind, h2]

theorem C7_change_difficulty_witness :
    (changeDifficulty
        { industry := some "logistics", difficulty := "medium",
          current_question := some "Count the carriers.",
          current_solution := some "SELECT COUNT(*) FROM carriers" }
        "hard").current_question = none ∧
    sessionPhase
        (changeDifficulty
          { industry := some "logistics", difficulty := "medium",
            current_question := some "Count the carriers.",
            current_solution := some "SELECT COUNT(*) FROM carriers" }
          "hard") = Phase.AwaitingQuestion :=
  C7_change_difficulty
    { industry := some "logistics", difficulty := "medium",
      current_question := some "Count the carriers.",
      current_solution := some "SELECT COUNT(*) FROM carriers" }
    "hard" (by decide) (by decide) (by decide)

/-- C9 fails on the code: with 1 correct answer out of 2 attempts the code's
accuracy value is 50 (a percentage), not the ratio 1/2 the claim states. -/
theorem C9_cex :
    accuracy { total_attempts := 2, correct_answers := 1, questions_history := [] } = 50 ∧
    accuracy { total_attempts := 2, correct_answers := 1, questions_history := [] } ≠
      (1 : ℚ) / 2 := by
  constructor <;> norm_num [accuracy]

/-- C9 (amended): the accuracy computation returns
`correct_answers / total_attempts * 100` (a percentage) when
`total_attempts > 0`, and `0` when `total_attempts = 0`. -/
theorem C9_amended (stats : UserStats) :
    (stats.total_attempts = 0 → accuracy stats = 0) ∧
    (0 < stats.total_attempts →
      accuracy stats = (stats.correct_answers : ℚ) / (stats.total_attempts : ℚ) * 100) := by
  constructor
  · intro h
    unfold accuracy
    simp [h]
  · intro h
    unfold accuracy
    rw [if_pos h]

theorem C9_amended_witness :
    accuracy { total_attempts := 0, correct_answers := 0, questions_history := [] } = 0 ∧
    accuracy { total_attempts := 2, correct_answers := 1, questions_history := [] } =
      (1 : ℚ) / 2 * 100 :=
  ⟨(C9_amended { total_attempts := 0, correct_answers := 0, questions_history := [] }).1 rfl,
   by
    have h := (C9_amended
      { total_attempts := 2, correct_answers := 1, questions_history := [] }).2 (by norm_num)
    simpa using h⟩

theorem joinCons (s : String) (l : List String) : String.join (s :: l) = s ++ String.join l := by
  simp [String.join_eq]
  rfl

theorem colsFoldEq (cols : List String) (acc : String) :
    cols.foldl (fun acc2 col => acc2 ++ "  └─ " ++ col ++ "\n") acc =
      acc ++ String.join (cols.map (fun col => "  └─ " ++ col ++ "\n")) := by
  induction cols generalizing acc with
  | nil =>
    simp only [List.foldl_nil, List.map_nil]
    rw [show String.join ([] : List String) = "" from rfl, String.append_empty]
  | cons c rest ih =>
    simp only [List.foldl_cons, List.map_cons]
    rw [ih, joinCons]
    simp [String.append_assoc]

theorem tablesFoldEq (tables : List (String × List String)) (acc : String) :
    tables.foldl
        (fun acc tc =>
          tc.2.foldl (fun acc2 col => acc2 ++ "  └─ " ++ col ++ "\n") (acc ++ "- " ++ tc.1 ++ "\n"))
        acc =
      acc ++ String.join (tables.map (fun tc =>
        "- " ++ tc.1 ++ "\n" ++ String.join (tc.2.map (fun col => "  └─ " ++ col ++ "\n")))) := by
  induction tables generalizing acc with
  | nil =>
    simp only [List.foldl_nil, List.map_nil]
    rw [show String.join ([] : List String) = "" from rfl, String.append_empty]
  | cons tc rest ih =>
    simp only [List.foldl_cons, List.map_cons]
    rw [colsFoldEq, ih, joinCons]
    simp [String.append_assoc]

theorem relsFoldEq (rels : List String) (acc : String) :
    rels.foldl (fun acc rel => acc ++ "- " ++ rel ++ "\n") acc =
      acc ++ String.join (rels.map (fun rel => "- " ++ rel ++ "\n")) := by
  induction rels generalizing acc with
  | nil =>
    simp only [List.foldl_nil, List.map_nil]
    rw [show String.join ([] : List String) = "" from rfl, String.append_empty]
  | cons r rest ih =>
    simp only [List.foldl_cons, List.map_cons]
    rw [ih, joinCons]
    simp [String.append_assoc]

/-- C8: `get_schema_prompt` is a pure function of the looked-up descriptor,
and for every industry present in the catalog the rendered text is exactly the
header, then the table list, then the relationship list, each in the
descriptor's insertion order (the spec-side renderings `renderTablesSpec` and
`renderRelsSpec` preserve list order). -/
theorem C8_render_prompt (industry : String) (schema : IndustrySchema)
    (h : lookupSchema industry = some schema) :
    get_schema_prompt industry =
      "Database Schema for " ++ pyTitle industry ++ ":\n\n" ++
      "Description: " ++ schema.description ++ "\n\n" ++ "Tables:\n" ++
      renderTablesSpec schema.tables ++ "\nRelationships:\n" ++
      renderRelsSpec schema.relationships := by
  unfold get_schema_prompt
  rw [h]
  unfold renderTablesSpec renderRelsSpec
  dsimp only
  rw [tablesFoldEq, relsFoldEq]

theorem C8_render_prompt_witness :
    get_schema_prompt "logistics" =
      "Database Schema for " ++ pyTitle "logistics" ++ ":\n\n" ++
      "Description: " ++
        "Logistics and warehouse management system tracking inventory, shipments, and carriers." ++
      "\n\n" ++ "Tables:\n" ++
      renderTablesSpec
        [("warehouses", ["warehouse_id", "name", "location", "capacity"]),
         ("inventory", ["item_id", "warehouse_id", "product_name", "quantity", "reorder_point"]),
         ("shipments", ["shipment_id", "origin_warehouse", "destination", "status", "carrier_id"]),
         ("carriers", ["carrier_id", "name", "service_level", "cost_per_mile"])] ++
      "\nRelationships:\n" ++
      renderRelsSpec
        ["inventory.warehouse_id -> warehouses.warehouse_id",
         "shipments.origin_warehouse -> warehouses.warehouse_id",
         "shipments.carrier_id -> carriers.carrier_id"] :=
  C8_render_prompt "logistics"
    { schema_url := "https://claude.site/artifacts/bf15ac3a-7ad0-4693-80ab-0bdcfa1cd2ae"
      description :=
        "Logistics and warehouse management system tracking inventory, shipments, and carriers."
      tables :=
        [("warehouses", ["warehouse_id", "name", "location", "capacity"]),
         ("inventory", ["item_id", "warehouse_id", "product_name", "quantity", "reorder_point"]),
         ("shipments", ["shipment_id", "origin_warehouse", "destination", "status", "carrier_id"]),
         ("carriers", ["carrier_id", "name", "service_level", "cost_per_mile"])]
      relationships :=
        ["inventory.warehouse_id -> warehouses.warehouse_id",
         "shipments.origin_warehouse -> warehouses.warehouse_id",
         "shipments.carrier_id -> carriers.carrier_id"]
      sample_questions :=
        ["Show me which warehouses are below their reorder points for any items.",
         "List the top 3 carriers by number of shipments.",
         "Calculate the total inventory quantity by warehouse."] }
    (by decide)

theorem patChars_facts :
    ∀ k ∈ patChars,
      isWordChar (lowChar k) = isWordChar k ∧
      pySpace (lowChar k) = pySpace k ∧
      ciChar k k = true := by decide

theorem patChars_pair_facts :
    ∀ k ∈ patChars, ∀ q ∈ patChars,
      ciChar q k = ciChar q (lowChar k) ∧ (ciChar q k = true → q = k) := by decide

theorem simcRefl (c : Char) : SimC c c := Or.inl rfl

theorem SimC.word {c d : Char} (h : SimC c d) : isWordChar d = isWordChar c := by
  rcases h with rfl | ⟨k, hk, hc, hd⟩
  · rfl
  · rw [hd]
    unfold ciChar at hc
    simp only [Bool.or_eq_true, beq_iff_eq] at hc
    rcases hc with rfl | h2
    · rfl
    · rw [h2]
      exact ((patChars_facts k hk).1).symm

theorem SimC.space {c d : Char} (h : SimC c d) : pySpace d = pySpace c := by
  rcases h with rfl | ⟨k, hk, hc, hd⟩
  · rfl
  · rw [hd]
    unfold ciChar at hc
    simp only [Bool.or_eq_true, beq_iff_eq] at hc
    rcases hc with rfl | h2
    · rfl
    · rw [h2]
      exact ((patChars_facts k hk).2.1).symm

theorem SimC.ci {c d : Char} (q : Char) (hq : q ∈ patChars) (h : SimC c d) :
    ciChar q d = ciChar q c := by
  rcases h with rfl | ⟨k, hk, hc, hd⟩
  · rfl
  · rw [hd]
    unfold ciChar at hc
    simp only [Bool.or_eq_true, beq_iff_eq] at hc
    rcases hc with rfl | h2
    · rfl
    · rw [h2]
      exact (patChars_pair_facts k hk q hq).1

theorem SimC.rigid {c d : Char} (hc : c ∈ patChars) (h : SimC c d) : d = c := by
  rcases h with rfl | ⟨k, hk, hci, hd⟩
  · rfl
  · rw [hd]
    exact (patChars_pair_facts c hc k hk).2 hci

theorem simcTrans {c d e : Char} (h1 : SimC c d) (h2 : SimC d e) : SimC c e := by
  rcases h2 with rfl | ⟨k, hk, hci, he⟩
  · exact h1
  · right
    refine ⟨k, hk, ?_, he⟩
    rw [← SimC.ci k hk h1]
    exact hci

theorem simRefl : ∀ s : List Char, Sim s s
  | [] => Sim.nil
  | c :: cs => Sim.cons (simcRefl c) (simRefl cs)

theorem Sim.length_eq {s t : List Char} (h : Sim s t) : t.length = s.length := by
  induction h with
  | nil => rfl
  | cons _ _ ih => simp [ih]

theorem simTrans {s t u : List Char} (h1 : Sim s t) (h2 : Sim t u) : Sim s u := by
  induction h1 generalizing u with
  | nil => cases h2; exact Sim.nil
  | cons hcd htl ih =>
    cases h2 with
    | cons hde h2tl => exact Sim.cons (simcTrans hcd hde) (ih h2tl)

theorem Sim.append {a b c d : List Char} (h1 : Sim a b) (h2 : Sim c d) :
    Sim (a ++ c) (b ++ d) := by
  induction h1 with
  | nil => exact h2
  | cons hcd _ ih => exact Sim.cons hcd ih

theorem Sim.dropN (n : Nat) {s t : List Char} (h : Sim s t) : Sim (s.drop n) (t.drop n) := by
  induction n generalizing s t with
  | zero => exact h
  | succ n ih =>
    cases h with
    | nil => exact Sim.nil
    | cons _ htl => exact ih htl

theorem Sim.decomp {a c t : List Char} (h : Sim (a ++ c) t) :
    ∃ b d, t = b ++ d ∧ Sim a b ∧ Sim c d := by
  induction a generalizing t with
  | nil => exact ⟨[], t, rfl, Sim.nil, h⟩
  | cons x xs ih =>
    cases h with
    | cons hxd htl =>
      obtain ⟨b, d, rfl, hb, hd⟩ := ih htl
      exact ⟨_ :: b, d, rfl, Sim.cons hxd hb, hd⟩

theorem Sim.rigidList {a b : List Char} (ha : ∀ c ∈ a, c ∈ patChars) (h : Sim a b) : b = a := by
  induction h with
  | nil => rfl
  | cons hcd _ ih =>
    rw [ih (fun c hc => ha c (List.mem_cons_of_mem _ hc)),
        SimC.rigid (ha _ (List.mem_cons_self _ _)) hcd]

theorem Sim.spacefree {a b : List Char} (h : Sim a b) (ha : ∀ c ∈ a, pySpace c = false) :
    ∀ c ∈ b, pySpace c = false := by
  induction h with
  | nil => exact ha
  | cons hcd _ ih =>
    intro x hx
    rcases List.mem_cons.mp hx with rfl | hx
    · rw [SimC.space hcd]
      exact ha _ (List.mem_cons_self _ _)
    · exact ih (fun c hc => ha c (List.mem_cons_of_mem _ hc)) x hx

theorem Sim.allspace_iff {a b : List Char} (h : Sim a b) :
    (∀ c ∈ a, pySpace c = true) ↔ (∀ c ∈ b, pySpace c = true) := by
  induction h with
  | nil => exact Iff.rfl
  | cons hcd _ ih =>
    simp only [List.mem_cons, forall_eq_or_imp]
    rw [SimC.space hcd]
    exact and_congr Iff.rfl ih

theorem matchesPat_sim (kw : List Char) (hkw : ∀ k ∈ kw, k ∈ patChars) :
    ∀ {s t : List Char}, Sim s t → matchesPat kw t = matchesPat kw s := by
  induction kw with
  | nil => intro s t _; rfl
  | cons k ks ih =>
    intro s t h
    cases h with
    | nil => rfl
    | cons hcd htl =>
      simp only [matchesPat]
      rw [SimC.ci k (hkw k (List.mem_cons_self _ _)) hcd,
          ih (fun q hq => hkw q (List.mem_cons_of_mem _ hq)) htl]

theorem matchesPat_self (kw : List Char) (hkw : ∀ k ∈ kw, k ∈ patChars) (s : List Char) :
    matchesPat kw (kw ++ s) = true := by
  induction kw with
  | nil => rfl
  | cons k ks ih =>
    simp only [List.cons_append, matchesPat, Bool.and_eq_true]
    exact ⟨(patChars_facts k (hkw k (List.mem_cons_self _ _))).2.2,
           ih (fun q hq => hkw q (List.mem_cons_of_mem _ hq))⟩

theorem matchesPat_simDecomp (kw : List Char) (hkw : ∀ k ∈ kw, k ∈ patChars) :
    ∀ s, matchesPat kw s = true → Sim s (kw ++ s.drop kw.length) := by
  induction kw with
  | nil => intro s _; simpa using simRefl s
  | cons k ks ih =>
    intro s h
    cases s with
    | nil => simp [matchesPat] at h
    | cons c cs =>
      simp only [matchesPat, Bool.and_eq_true] at h
      simp only [List.cons_append, List.length_cons, List.drop_succ_cons]
      exact Sim.cons (Or.inr ⟨k, hkw k (List.mem_cons_self _ _), h.1, rfl⟩)
        (ih (fun q hq => hkw q (List.mem_cons_of_mem _ hq)) cs h.2)

theorem sub1_nil (k0 : Char) (ktl : List Char) (pw : Bool) : sub1 k0 ktl pw [] = [] := by
  cases pw <;> rw [sub1]

theorem sub1_true (k0 : Char) (ktl : List Char) (c : Char) (cs : List Char) :
    sub1 k0 ktl true (c :: cs) = c :: sub1 k0 ktl (isWordChar c) cs := by
  rw [sub1]

theorem sub1_false_nomatch {k0 : Char} {ktl : List Char} {c : Char} {cs : List Char}
    (h : matchesPat (k0 :: ktl) (c :: cs) = false) :
    sub1 k0 ktl false (c :: cs) = c :: sub1 k0 ktl (isWordChar c) cs := by
  rw [sub1, if_neg (by simp [h])]

theorem sub1_false_noBA {k0 : Char} {ktl : List Char} {c : Char} {cs : List Char}
    (h : matchesPat (k0 :: ktl) (c :: cs) = true)
    (hb : boundaryAfterOk ((c :: cs).drop (k0 :: ktl).length) = false) :
    sub1 k0 ktl false (c :: cs) = c :: sub1 k0 ktl (isWordChar c) cs := by
  rw [sub1, if_pos h, if_neg (by simp only [List.length_cons, List.drop_succ_cons] at hb; simp [hb])]

theorem sub1_false_match {k0 : Char} {ktl : List Char} {c : Char} {cs : List Char}
    (h : matchesPat (k0 :: ktl) (c :: cs) = true)
    (hb : boundaryAfterOk ((c :: cs).drop (k0 :: ktl).length) = true) :
    sub1 k0 ktl false (c :: cs) =
      (k0 :: ktl) ++ sub1 k0 ktl (isWordChar (ktl.getLastD k0)) ((c :: cs).drop (k0 :: ktl).length) := by
  rw [sub1, if_pos h, if_pos hb]

theorem boundaryAfterOk_sim {a b : List Char} (h : Sim a b) :
    boundaryAfterOk b = boundaryAfterOk a := by
  cases h with
  | nil => rfl
  | cons hcd _ => simp only [boundaryAfterOk]; rw [SimC.word hcd]

theorem sub1_simAux (k0 : Char) (ktl : List Char) (hkw : ∀ k ∈ (k0 :: ktl), k ∈ patChars) :
    ∀ (n : Nat) (s : List Char), s.length ≤ n → ∀ pw, Sim s (sub1 k0 ktl pw s) := by
  intro n
  induction n with
  | zero =>
    intro s hs pw
    have hnil : s = [] := List.eq_nil_of_length_eq_zero (Nat.le_zero.mp hs)
    subst hnil
    rw [sub1_nil]
    exact Sim.nil
  | succ n ih =>
    intro s hs pw
    cases s with
    | nil => rw [sub1_nil]; exact Sim.nil
    | cons c cs =>
      have hcs : cs.length ≤ n := by
        simp only [List.length_cons] at hs; omega
      cases pw with
      | true => rw [sub1_true]; exact Sim.cons (simcRefl c) (ih cs hcs _)
      | false =>
        cases hm : matchesPat (k0 :: ktl) (c :: cs) with
        | false => rw [sub1_false_nomatch hm]; exact Sim.cons (simcRefl c) (ih cs hcs _)
        | true =>
          cases hb : boundaryAfterOk ((c :: cs).drop (k0 :: ktl).length) with
          | false => rw [sub1_false_noBA hm hb]; exact Sim.cons (simcRefl c) (ih cs hcs _)
          | true =>
            rw [sub1_false_match hm hb]
            have h1 : Sim (c :: cs) ((k0 :: ktl) ++ (c :: cs).drop (k0 :: ktl).length) :=
              matchesPat_simDecomp _ hkw _ hm
            have hd : ((c :: cs).drop (k0 :: ktl).length).length ≤ n := by
              simp only [List.length_drop, List.length_cons]; omega
            exact simTrans h1 (Sim.append (simRefl (k0 :: ktl)) (ih _ hd _))

theorem sub1_sim (k0 : Char) (ktl : List Char) (hkw : ∀ k ∈ (k0 :: ktl), k ∈ patChars)
    (pw : Bool) (s : List Char) : Sim s (sub1 k0 ktl pw s) :=
  sub1_simAux k0 ktl hkw s.length s (Nat.le_refl _) pw

theorem sub1_appendKw (k0 : Char) (ktl : List Char) (hkw : ∀ k ∈ (k0 :: ktl), k ∈ patChars)
    (Y : List Char) (hbY : boundaryAfterOk Y = true) :
    sub1 k0 ktl false ((k0 :: ktl) ++ Y) =
      (k0 :: ktl) ++ sub1 k0 ktl (isWordChar (ktl.getLastD k0)) Y := by
  have hm2 : matchesPat (k0 :: ktl) (k0 :: (ktl ++ Y)) = true := matchesPat_self _ hkw _
  have e : (k0 :: (ktl ++ Y)).drop (k0 :: ktl).length = Y := List.drop_left _ _
  have hb2 : boundaryAfterOk ((k0 :: (ktl ++ Y)).drop (k0 :: ktl).length) = true := by
    rw [e]; exact hbY
  have step := sub1_false_match hm2 hb2
  rw [e] at step
  exact step

theorem sub1_idemAux (k0 : Char) (ktl : List Char) (hkw : ∀ k ∈ (k0 :: ktl), k ∈ patChars) :
    ∀ (n : Nat) (s : List Char), s.length ≤ n → ∀ pw,
      sub1 k0 ktl pw (sub1 k0 ktl pw s) = sub1 k0 ktl pw s := by
  intro n
  induction n with
  | zero =>
    intro s hs pw
    have hnil : s = [] := List.eq_nil_of_length_eq_zero (Nat.le_zero.mp hs)
    subst hnil
    rw [sub1_nil, sub1_nil]
  | succ n ih =>
    intro s hs pw
    cases s with
    | nil => rw [sub1_nil, sub1_nil]
    | cons c cs =>
      have hcs : cs.length ≤ n := by
        simp only [List.length_cons] at hs; omega
      cases pw with
      | true => rw [sub1_true, sub1_true, ih cs hcs]
      | false =>
        cases hm : matchesPat (k0 :: ktl) (c :: cs) with
        | false =>
          rw [sub1_false_nomatch hm]
          have hsim : Sim (c :: cs) (c :: sub1 k0 ktl (isWordChar c) cs) :=
            Sim.cons (simcRefl c) (sub1_sim k0 ktl hkw _ cs)
          have hm2 : matchesPat (k0 :: ktl) (c :: sub1 k0 ktl (isWordChar c) cs) = false := by
            rw [matchesPat_sim (k0 :: ktl) hkw hsim]; exact hm
          rw [sub1_false_nomatch hm2, ih cs hcs]
        | true =>
          cases hb : boundaryAfterOk ((c :: cs).drop (k0 :: ktl).length) with
          | false =>
            rw [sub1_false_noBA hm hb]
            have hsim : Sim (c :: cs) (c :: sub1 k0 ktl (isWordChar c) cs) :=
              Sim.cons (simcRefl c) (sub1_sim k0 ktl hkw _ cs)
            have hm2 : matchesPat (k0 :: ktl) (c :: sub1 k0 ktl (isWordChar c) cs) = true := by
              rw [matchesPat_sim (k0 :: ktl) hkw hsim]; exact hm
            have hb2 : boundaryAfterOk
                ((c :: sub1 k0 ktl (isWordChar c) cs).drop (k0 :: ktl).length) = false := by
              rw [boundaryAfterOk_sim (Sim.dropN (k0 :: ktl).length hsim)]; exact hb
            rw [sub1_false_noBA hm2 hb2, ih cs hcs]
          | true =>
            rw [sub1_false_match hm hb]
            have hrlen : ((c :: cs).drop (k0 :: ktl).length).length ≤ n := by
              simp only [List.length_drop, List.length_cons]; omega
            have hsimr : Sim ((c :: cs).drop (k0 :: ktl).length)
                (sub1 k0 ktl (isWordChar (ktl.getLastD k0)) ((c :: cs).drop (k0 :: ktl).length)) :=
              sub1_sim k0 ktl hkw _ _
            have hbY : boundaryAfterOk
                (sub1 k0 ktl (isWordChar (ktl.getLastD k0)) ((c :: cs).drop (k0 :: ktl).length)) =
                true := by
              rw [boundaryAfterOk_sim hsimr]; exact hb
            rw [sub1_appendKw k0 ktl hkw _ hbY, ih _ hrlen]

theorem sub1_idem (k0 : Char) (ktl : List Char) (hkw : ∀ k ∈ (k0 :: ktl), k ∈ patChars)
    (pw : Bool) (s : List Char) :
    sub1 k0 ktl pw (sub1 k0 ktl pw s) = sub1 k0 ktl pw s :=
  sub1_idemAux k0 ktl hkw s.length s (Nat.le_refl _) pw

theorem sub1_fixsimAux (k0 : Char) (ktl : List Char) (hkw : ∀ k ∈ (k0 :: ktl), k ∈ patChars) :
    ∀ (n : Nat) (s : List Char), s.length ≤ n → ∀ (t : List Char) (pw : Bool),
      sub1 k0 ktl pw s = s → Sim s t → sub1 k0 ktl pw t = t := by
  intro n
  induction n with
  | zero =>
    intro s hs t pw _ hst
    have hnil : s = [] := List.eq_nil_of_length_eq_zero (Nat.le_zero.mp hs)
    subst hnil
    cases hst
    rw [sub1_nil]
  | succ n ih =>
    intro s hs t pw hfix hst
    cases hst with
    | nil => rw [sub1_nil]
    | @cons c d cs ds hcd htl =>
      have hcs : cs.length ≤ n := by
        simp only [List.length_cons] at hs; omega
      cases pw with
      | true =>
        rw [sub1_true] at hfix
        simp only [List.cons.injEq, true_and] at hfix
        rw [sub1_true, SimC.word hcd, ih cs hcs ds _ hfix htl]
      | false =>
        cases hm : matchesPat (k0 :: ktl) (c :: cs) with
        | false =>
          rw [sub1_false_nomatch hm] at hfix
          simp only [List.cons.injEq, true_and] at hfix
          have hm2 : matchesPat (k0 :: ktl) (d :: ds) = false := by
            rw [matchesPat_sim (k0 :: ktl) hkw (Sim.cons hcd htl)]; exact hm
          rw [sub1_false_nomatch hm2, SimC.word hcd, ih cs hcs ds _ hfix htl]
        | true =>
          cases hb : boundaryAfterOk ((c :: cs).drop (k0 :: ktl).length) with
          | false =>
            rw [sub1_false_noBA hm hb] at hfix
            simp only [List.cons.injEq, true_and] at hfix
            have hm2 : matchesPat (k0 :: ktl) (d :: ds) = true := by
              rw [matchesPat_sim (k0 :: ktl) hkw (Sim.cons hcd htl)]; exact hm
            have hb2 : boundaryAfterOk ((d :: ds).drop (k0 :: ktl).length) = false := by
              rw [boundaryAfterOk_sim (Sim.dropN (k0 :: ktl).length (Sim.cons hcd htl))]
              exact hb
            rw [sub1_false_noBA hm2 hb2, SimC.word hcd, ih cs hcs ds _ hfix htl]
          | true =>
            rw [sub1_false_match hm hb] at hfix
            have hfixrest :
                sub1 k0 ktl (isWordChar (ktl.getLastD k0)) ((c :: cs).drop (k0 :: ktl).length) =
                  (c :: cs).drop (k0 :: ktl).length := by
              conv_rhs => rw [← hfix]
              rw [List.drop_left]
            have hdecomp :
                c :: cs = (k0 :: ktl) ++ (c :: cs).drop (k0 :: ktl).length := by
              rw [hfixrest] at hfix
              exact hfix.symm
            have hst0 : Sim (c :: cs) (d :: ds) := Sim.cons hcd htl
            rw [hdecomp] at hst0
            obtain ⟨B, D, hBD, hAB, hrD⟩ := Sim.decomp hst0
            have hBA : B = (k0 :: ktl) := Sim.rigidList hkw hAB
            rw [hBD, hBA]
            have hbD : boundaryAfterOk D = true := by
              rw [boundaryAfterOk_sim hrD]; exact hb
            rw [sub1_appendKw k0 ktl hkw D hbD]
            have hrestlen : ((c :: cs).drop (k0 :: ktl).length).length ≤ n := by
              simp only [List.length_drop, List.length_cons]; omega
            rw [ih _ hrestlen D _ hfixrest hrD]

theorem sub1_fixsim (k0 : Char) (ktl : List Char) (hkw : ∀ k ∈ (k0 :: ktl), k ∈ patChars)
    {s t : List Char} (pw : Bool) (hfix : sub1 k0 ktl pw s = s) (hst : Sim s t) :
    sub1 k0 ktl pw t = t :=
  sub1_fixsimAux k0 ktl hkw s.length s (Nat.le_refl _) t pw hfix hst

theorem subKeyword_sim (kw : List Char) (hkw : ∀ k ∈ kw, k ∈ patChars) (s : List Char) :
    Sim s (subKeyword kw s) := by
  cases kw with
  | nil => exact simRefl s
  | cons k ks => exact sub1_sim k ks hkw false s

theorem subKeyword_idem (kw : List Char) (hkw : ∀ k ∈ kw, k ∈ patChars) (s : List Char) :
    subKeyword kw (subKeyword kw s) = subKeyword kw s := by
  cases kw with
  | nil => rfl
  | cons k ks => exact sub1_idem k ks hkw false s

theorem subKeyword_fixsim (kw : List Char) (hkw : ∀ k ∈ kw, k ∈ patChars) {s t : List Char}
    (h : subKeyword kw s = s) (hst : Sim s t) : subKeyword kw t = t := by
  cases kw with
  | nil => rfl
  | cons k ks => exact sub1_fixsim k ks hkw false h hst

theorem foldKw_sim :
    ∀ (L : List String), (∀ w ∈ L, ∀ k ∈ w.data, k ∈ patChars) →
      ∀ s, Sim s (L.foldl (fun acc kw => subKeyword kw.data acc) s) := by
  intro L
  induction L with
  | nil => intro _ s; exact simRefl s
  | cons kw0 rest ih =>
    intro hL s
    simp only [List.foldl_cons]
    exact simTrans (subKeyword_sim kw0.data (hL kw0 (List.mem_cons_self _ _)) s)
      (ih (fun w hw => hL w (List.mem_cons_of_mem _ hw)) _)

theorem foldKw_preserveFix (kw : List Char) (hkw : ∀ k ∈ kw, k ∈ patChars) :
    ∀ (L : List String), (∀ w ∈ L, ∀ k ∈ w.data, k ∈ patChars) →
      ∀ s, subKeyword kw s = s →
        subKeyword kw (L.foldl (fun acc w => subKeyword w.data acc) s) =
          L.foldl (fun acc w => subKeyword w.data acc) s := by
  intro L
  induction L with
  | nil => intro _ s h; exact h
  | cons kw0 rest ih =>
    intro hL s h
    simp only [List.foldl_cons]
    exact ih (fun w hw => hL w (List.mem_cons_of_mem _ hw)) _
      (subKeyword_fixsim kw hkw h
        (subKeyword_sim kw0.data (hL kw0 (List.mem_cons_self _ _)) s))

theorem foldKw_allfix :
    ∀ (L : List String), (∀ w ∈ L, ∀ k ∈ w.data, k ∈ patChars) →
      ∀ s, ∀ w ∈ L,
        subKeyword w.data (L.foldl (fun acc v => subKeyword v.data acc) s) =
          L.foldl (fun acc v => subKeyword v.data acc) s := by
  intro L
  induction L with
  | nil => intro _ s w hw; simp at hw
  | cons kw0 rest ih =>
    intro hL s w hw
    simp only [List.foldl_cons]
    rcases List.mem_cons.mp hw with rfl | hw2
    · exact foldKw_preserveFix w.data (hL w (List.mem_cons_self _ _)) rest
        (fun v hv => hL v (List.mem_cons_of_mem _ hv)) _
        (subKeyword_idem w.data (hL w (List.mem_cons_self _ _)) s)
    · exact ih (fun v hv => hL v (List.mem_cons_of_mem _ hv)) _ w hw2

theorem foldKw_idem :
    ∀ (L : List String), (∀ w ∈ L, ∀ k ∈ w.data, k ∈ patChars) →
      ∀ s, L.foldl (fun acc w => subKeyword w.data acc)
             (L.foldl (fun acc w => subKeyword w.data acc) s) =
           L.foldl (fun acc w => subKeyword w.data acc) s := by
  intro L
  induction L with
  | nil => intro _ s; rfl
  | cons kw0 rest ih =>
    intro hL s
    have hfix := foldKw_allfix (kw0 :: rest) hL s kw0 (List.mem_cons_self _ _)
    simp only [List.foldl_cons] at hfix ⊢
    rw [hfix]
    exact ih (fun v hv => hL v (List.mem_cons_of_mem _ hv)) _

theorem capitalizeKeywords_sim (s : List Char) : Sim s (capitalizeKeywords s) :=
  foldKw_sim sqlKeywords (by decide) s

theorem capitalizeKeywords_idem (s : List Char) :
    capitalizeKeywords (capitalizeKeywords s) = capitalizeKeywords s :=
  foldKw_idem sqlKeywords (by decide) s

theorem wordsOf_nil : wordsOf [] = [] := by rw [wordsOf]

theorem wordsOf_space {c : Char} {cs : List Char} (h : pySpace c = true) :
    wordsOf (c :: cs) = wordsOf cs := by
  rw [wordsOf, if_pos h]

theorem wordsOf_nonspace {c : Char} {cs : List Char} (h : pySpace c = false) :
    wordsOf (c :: cs) =
      (c :: cs.takeWhile (fun x => !pySpace x)) :: wordsOf (cs.dropWhile (fun x => !pySpace x)) := by
  rw [wordsOf, if_neg (by simp [h])]

theorem takeWhile_all_append {p : Char → Bool} :
    ∀ (w t : List Char), (∀ x ∈ w, p x = true) → (w ++ t).takeWhile p = w ++ t.takeWhile p := by
  intro w
  induction w with
  | nil => intro t _; rfl
  | cons a w2 ih =>
    intro t hw
    have ha := hw a (List.mem_cons_self _ _)
    simp only [List.cons_append, List.takeWhile_cons, ha, if_true]
    rw [ih t (fun x hx => hw x (List.mem_cons_of_mem _ hx))]

theorem dropWhile_all_append {p : Char → Bool} :
    ∀ (w t : List Char), (∀ x ∈ w, p x = true) → (w ++ t).dropWhile p = t.dropWhile p := by
  intro w
  induction w with
  | nil => intro t _; rfl
  | cons a w2 ih =>
    intro t hw
    have ha := hw a (List.mem_cons_self _ _)
    simp only [List.cons_append, List.dropWhile_cons, ha, if_true]
    exact ih t (fun x hx => hw x (List.mem_cons_of_mem _ hx))

theorem wordsOf_word_append (w t : List Char) (hne : w ≠ [])
    (hsf : ∀ c ∈ w, pySpace c = false)
    (ht : t = [] ∨ ∃ d t2, t = d :: t2 ∧ pySpace d = true) :
    wordsOf (w ++ t) = w :: wordsOf t := by
  cases w with
  | nil => exact absurd rfl hne
  | cons c w2 =>
    have hc : pySpace c = false := hsf c (List.mem_cons_self _ _)
    simp only [List.cons_append]
    rw [wordsOf_nonspace hc]
    have h1 : (w2 ++ t).takeWhile (fun x => !pySpace x) = w2 ++ t.takeWhile (fun x => !pySpace x) :=
      takeWhile_all_append w2 t (fun x hx => by
        rw [Bool.not_eq_true']
        exact hsf x (List.mem_cons_of_mem _ hx))
    have h2 : (w2 ++ t).dropWhile (fun x => !pySpace x) = t.dropWhile (fun x => !pySpace x) :=
      dropWhile_all_append w2 t (fun x hx => by
        rw [Bool.not_eq_true']
        exact hsf x (List.mem_cons_of_mem _ hx))
    rw [h1, h2]
    have h3 : t.takeWhile (fun x => !pySpace x) = [] := by
      rcases ht with rfl | ⟨d, t2, rfl, hd⟩
      · rfl
      · simp [List.takeWhile_cons, hd]
    have h4 : t.dropWhile (fun x => !pySpace x) = t := by
      rcases ht with rfl | ⟨d, t2, rfl, hd⟩
      · rfl
      · simp [List.dropWhile_cons, hd]
    rw [h3, h4, List.append_nil]

theorem wordsOf_specAux :
    ∀ (n : Nat) (s : List Char), s.length ≤ n →
      ∀ w ∈ wordsOf s, w ≠ [] ∧ ∀ c ∈ w, pySpace c = false := by
  intro n
  induction n with
  | zero =>
    intro s hs
    have hnil : s = [] := List.eq_nil_of_length_eq_zero (Nat.le_zero.mp hs)
    subst hnil
    rw [wordsOf_nil]
    intro w hw
    simp at hw
  | succ n ih =>
    intro s hs
    cases s with
    | nil =>
      rw [wordsOf_nil]
      intro w hw
      simp at hw
    | cons c cs =>
      have hcs : cs.length ≤ n := by
        simp only [List.length_cons] at hs; omega
      cases hc : pySpace c with
      | true =>
        rw [wordsOf_space hc]
        exact ih cs hcs
      | false =>
        rw [wordsOf_nonspace hc]
        intro w hw
        rcases List.mem_cons.mp hw with rfl | hw2
        · refine ⟨by simp, ?_⟩
          intro x hx
          rcases List.mem_cons.mp hx with rfl | hx2
          · exact hc
          · have := List.mem_takeWhile_imp hx2
            rwa [Bool.not_eq_true'] at this
        · have hdrop : (cs.dropWhile (fun x => !pySpace x)).length ≤ n :=
            Nat.le_trans (List.dropWhile_sublist _).length_le hcs
          exact ih _ hdrop w hw2

theorem wordsOf_nonempty_spacefree (s : List Char) :
    ∀ w ∈ wordsOf s, w ≠ [] ∧ ∀ c ∈ w, pySpace c = false :=
  wordsOf_specAux s.length s (Nat.le_refl _)

theorem joinSp_cons {w : List Char} {ws : List (List Char)} (h : ws ≠ []) :
    joinSp (w :: ws) = w ++ ' ' :: joinSp ws := by
  cases ws with
  | nil => exact absurd rfl h
  | cons w2 ws2 => rfl

theorem wordsOf_joinSp :
    ∀ (ws : List (List Char)), (∀ w ∈ ws, w ≠ [] ∧ ∀ c ∈ w, pySpace c = false) →
      wordsOf (joinSp ws) = ws := by
  intro ws
  induction ws with
  | nil =>
    intro _
    rw [show joinSp [] = [] from rfl, wordsOf_nil]
  | cons w ws2 ih =>
    intro hws
    cases ws2 with
    | nil =>
      rw [show joinSp [w] = w from rfl]
      have h2 := wordsOf_word_append w []
        (hws w (List.mem_cons_self _ _)).1 (hws w (List.mem_cons_self _ _)).2 (Or.inl rfl)
      rw [List.append_nil] at h2
      rw [h2, wordsOf_nil]
    | cons w2 ws3 =>
      rw [joinSp_cons (by simp)]
      have h2 := wordsOf_word_append w (' ' :: joinSp (w2 :: ws3))
        (hws w (List.mem_cons_self _ _)).1 (hws w (List.mem_cons_self _ _)).2
        (Or.inr ⟨' ', joinSp (w2 :: ws3), rfl, by decide⟩)
      rw [h2, wordsOf_space (by decide), ih (fun v hv => hws v (List.mem_cons_of_mem _ hv))]

theorem collapseWs_idem (s : List Char) : collapseWs (collapseWs s) = collapseWs s := by
  unfold collapseWs
  rw [wordsOf_joinSp (wordsOf s) (wordsOf_nonempty_spacefree s)]

theorem dropWhile_head_space :
    ∀ (l : List Char) (d : Char) (r2 : List Char),
      l.dropWhile (fun x => !pySpace x) = d :: r2 → pySpace d = true := by
  intro l
  induction l with
  | nil => intro d r2 h; simp at h
  | cons a l2 ih =>
    intro d r2 h
    rw [List.dropWhile_cons] at h
    cases ha : pySpace a with
    | true =>
      simp only [ha, Bool.not_true, Bool.false_eq_true, if_false] at h
      cases h
      exact ha
    | false =>
      simp only [ha, Bool.not_false, if_true] at h
      exact ih d r2 h

theorem takeWhile_dropWhile_length (p : Char → Bool) (l : List Char) :
    (l.takeWhile p).length + (l.dropWhile p).length = l.length := by
  conv_rhs => rw [← List.takeWhile_append_dropWhile p l]
  rw [List.length_append]

theorem collapseWs_lenAux :
    ∀ (n : Nat) (s : List Char), s.length ≤ n → (collapseWs s).length ≤ s.length := by
  intro n
  induction n with
  | zero =>
    intro s hs
    have hnil : s = [] := List.eq_nil_of_length_eq_zero (Nat.le_zero.mp hs)
    subst hnil
    rw [show collapseWs [] = [] by unfold collapseWs; rw [wordsOf_nil]; rfl]
  | succ n ih =>
    intro s hs
    cases s with
    | nil => rw [show collapseWs [] = [] by unfold collapseWs; rw [wordsOf_nil]; rfl]
    | cons c cs =>
      have hcs : cs.length ≤ n := by
        simp only [List.length_cons] at hs; omega
      cases hc : pySpace c with
      | true =>
        have h1 : collapseWs (c :: cs) = collapseWs cs := by
          unfold collapseWs; rw [wordsOf_space hc]
        rw [h1]
        have := ih cs hcs
        simp only [List.length_cons]
        omega
      | false =>
        have hlensplit := takeWhile_dropWhile_length (fun x => !pySpace x) cs
        cases hr : cs.dropWhile (fun x => !pySpace x) with
        | nil =>
          have h1 : collapseWs (c :: cs) = c :: cs.takeWhile (fun x => !pySpace x) := by
            unfold collapseWs
            rw [wordsOf_nonspace hc, hr, wordsOf_nil]
            rfl
          rw [h1]
          simp only [List.length_cons]
          omega
        | cons e r2 =>
          have hes : pySpace e = true := dropWhile_head_space cs e r2 hr
          have hwr : wordsOf (cs.dropWhile (fun x => !pySpace x)) = wordsOf r2 := by
            rw [hr, wordsOf_space hes]
          have hr2len : r2.length ≤ n := by
            have : (cs.dropWhile (fun x => !pySpace x)).length ≤ cs.length :=
              (List.dropWhile_sublist _).length_le
            rw [hr] at this
            simp only [List.length_cons] at this
            omega
          have hihr2 := ih r2 hr2len
          cases hwr2 : wordsOf r2 with
          | nil =>
            have h1 : collapseWs (c :: cs) = c :: cs.takeWhile (fun x => !pySpace x) := by
              unfold collapseWs
              rw [wordsOf_nonspace hc, hwr, hwr2]
              rfl
            rw [h1]
            simp only [List.length_cons]
            rw [hr] at hlensplit
            simp only [List.length_cons] at hlensplit
            omega
          | cons w2 ws2 =>
            have h1 : collapseWs (c :: cs) =
                (c :: cs.takeWhile (fun x => !pySpace x)) ++ ' ' :: joinSp (wordsOf r2) := by
              unfold collapseWs
              rw [wordsOf_nonspace hc, hwr, hwr2, joinSp_cons (by simp), ← hwr2]
            rw [h1]
            have h2 : joinSp (wordsOf r2) = collapseWs r2 := rfl
            rw [h2]
            simp only [List.length_append, List.length_cons]
            rw [hr] at hlensplit
            simp only [List.length_cons] at hlensplit
            omega

theorem wordsOf_eq_nil_iffAux :
    ∀ (n : Nat) (s : List Char), s.length ≤ n →
      (wordsOf s = [] ↔ ∀ c ∈ s, pySpace c = true) := by
  intro n
  induction n with
  | zero =>
    intro s hs
    have hnil : s = [] := List.eq_nil_of_length_eq_zero (Nat.le_zero.mp hs)
    subst hnil
    rw [wordsOf_nil]
    simp
  | succ n ih =>
    intro s hs
    cases s with
    | nil => rw [wordsOf_nil]; simp
    | cons c cs =>
      have hcs : cs.length ≤ n := by
        simp only [List.length_cons] at hs; omega
      cases hc : pySpace c with
      | true =>
        rw [wordsOf_space hc]
        rw [ih cs hcs]
        simp [hc]
      | false =>
        rw [wordsOf_nonspace hc]
        constructor
        · intro h; simp at h
        · intro h
          have := h c (List.mem_cons_self _ _)
          rw [hc] at this
          simp at this

theorem wordsOf_eq_nil_iff (s : List Char) :
    wordsOf s = [] ↔ ∀ c ∈ s, pySpace c = true :=
  wordsOf_eq_nil_iffAux s.length s (Nat.le_refl _)

theorem Sim.consLeft {x : Char} {xs t : List Char} (h : Sim (x :: xs) t) :
    ∃ y ys, t = y :: ys ∧ SimC x y ∧ Sim xs ys := by
  cases h with
  | cons hxy htl => exact ⟨_, _, rfl, hxy, htl⟩

theorem collapseWs_fixsimAux :
    ∀ (n : Nat) (s : List Char), s.length ≤ n → ∀ (t : List Char),
      Sim s t → collapseWs s = s → collapseWs t = t := by
  intro n
  induction n with
  | zero =>
    intro s hs t hst _
    have hnil : s = [] := List.eq_nil_of_length_eq_zero (Nat.le_zero.mp hs)
    subst hnil
    cases hst
    unfold collapseWs
    rw [wordsOf_nil]
    rfl
  | succ n ih =>
    intro s hs t hst hfix
    cases hst with
    | nil =>
      unfold collapseWs
      rw [wordsOf_nil]
      rfl
    | @cons c d cs ds hcd htl =>
      have hcs : cs.length ≤ n := by
        simp only [List.length_cons] at hs; omega
      cases hc : pySpace c with
      | true =>
        exfalso
        have h1 : collapseWs (c :: cs) = collapseWs cs := by
          unfold collapseWs; rw [wordsOf_space hc]
        rw [h1] at hfix
        have h2 := collapseWs_lenAux cs.length cs (Nat.le_refl _)
        rw [hfix] at h2
        simp only [List.length_cons] at h2
        omega
      | false =>
        have hlensplit := takeWhile_dropWhile_length (fun x => !pySpace x) cs
        have hsplit : cs =
            cs.takeWhile (fun x => !pySpace x) ++ cs.dropWhile (fun x => !pySpace x) :=
          (List.takeWhile_append_dropWhile _ _).symm
        have hsf : ∀ x ∈ c :: cs.takeWhile (fun x => !pySpace x), pySpace x = false := by
          intro x hx
          rcases List.mem_cons.mp hx with rfl | hx2
          · exact hc
          · have := List.mem_takeWhile_imp hx2
            rwa [Bool.not_eq_true'] at this
        cases hr : cs.dropWhile (fun x => !pySpace x) with
        | nil =>
          have hcs_eq : cs = cs.takeWhile (fun x => !pySpace x) := by
            have hx := hsplit
            rw [hr, List.append_nil] at hx
            exact hx
          have hsf2 : ∀ x ∈ c :: cs, pySpace x = false := by
            intro x hx
            rcases List.mem_cons.mp hx with rfl | hx2
            · exact hc
            · exact hsf x (List.mem_cons.mpr (Or.inr (hcs_eq ▸ hx2)))
          have htf : ∀ x ∈ d :: ds, pySpace x = false :=
            Sim.spacefree (Sim.cons hcd htl) hsf2
          have h2 := wordsOf_word_append (d :: ds) [] (by simp) htf (Or.inl rfl)
          rw [List.append_nil] at h2
          unfold collapseWs
          rw [h2, wordsOf_nil]
          rfl
        | cons e r2 =>
          have hes : pySpace e = true := dropWhile_head_space cs e r2 hr
          cases hwr2 : wordsOf r2 with
          | nil =>
            exfalso
            have h1 : collapseWs (c :: cs) = c :: cs.takeWhile (fun x => !pySpace x) := by
              unfold collapseWs
              rw [wordsOf_nonspace hc, hr, wordsOf_space hes, hwr2]
              rfl
            rw [h1] at hfix
            have h3 := congrArg List.length hfix
            simp only [List.length_cons] at h3
            rw [hr] at hlensplit
            simp only [List.length_cons] at hlensplit
            omega
          | cons w2 ws2 =>
            have h1 : collapseWs (c :: cs) =
                (c :: cs.takeWhile (fun x => !pySpace x)) ++ ' ' :: joinSp (wordsOf r2) := by
              unfold collapseWs
              rw [wordsOf_nonspace hc, hr, wordsOf_space hes, hwr2,
                  joinSp_cons (by simp), ← hwr2]
            rw [h1] at hfix
            have hs_eq : c :: cs = (c :: cs.takeWhile (fun x => !pySpace x)) ++ e :: r2 := by
              conv_lhs => rw [hsplit, hr]
              rfl
            rw [hs_eq] at hfix
            have hfix2 : ' ' :: joinSp (wordsOf r2) = e :: r2 := List.append_cancel_left hfix
            injection hfix2 with he hrfix
            have hst0 : Sim ((c :: cs.takeWhile (fun x => !pySpace x)) ++ ' ' :: r2) (d :: ds) := by
              have hx : Sim (c :: cs) (d :: ds) := Sim.cons hcd htl
              rw [hs_eq, ← he] at hx
              exact hx
            obtain ⟨B, E, hBE, hwB, hrest⟩ := Sim.decomp hst0
            obtain ⟨e2, tr2, hEeq, hspE, htr⟩ := Sim.consLeft hrest
            have he2 : e2 = ' ' := SimC.rigid (by decide) hspE
            have hBne : B ≠ [] := by
              intro hBnil
              have hlB := Sim.length_eq hwB
              rw [hBnil] at hlB
              simp at hlB
            have hBsf : ∀ x ∈ B, pySpace x = false := Sim.spacefree hwB hsf
            have ht_eq : d :: ds = B ++ ' ' :: tr2 := by
              rw [hBE, hEeq, he2]
            have hwt : wordsOf (B ++ ' ' :: tr2) = B :: wordsOf (' ' :: tr2) :=
              wordsOf_word_append B (' ' :: tr2) hBne hBsf (Or.inr ⟨' ', tr2, rfl, by decide⟩)
            have hne2 : wordsOf tr2 ≠ [] := by
              intro hnil2
              have h4 := (wordsOf_eq_nil_iff tr2).mp hnil2
              have h5 := (Sim.allspace_iff htr).mpr h4
              have h6 := (wordsOf_eq_nil_iff r2).mpr h5
              rw [hwr2] at h6
              simp at h6
            have hr2len : r2.length ≤ n := by
              have hx : (cs.dropWhile (fun x => !pySpace x)).length ≤ cs.length :=
                (List.dropWhile_sublist _).length_le
              rw [hr] at hx
              simp only [List.length_cons] at hx
              omega
            have hIH : collapseWs tr2 = tr2 := ih r2 hr2len tr2 htr hrfix
            unfold collapseWs
            rw [ht_eq, hwt, wordsOf_space (show pySpace ' ' = true by decide),
                joinSp_cons hne2]
            rw [show joinSp (wordsOf tr2) = collapseWs tr2 from rfl, hIH]

theorem collapseWs_fixsim {s t : List Char} (hst : Sim s t) (hfix : collapseWs s = s) :
    collapseWs t = t :=
  collapseWs_fixsimAux s.length s (Nat.le_refl _) t hst hfix

/-- C10: `_format_sql_query` is idempotent — applying whitespace collapsing
followed by the eight case-insensitive word-bounded keyword substitutions a
second time changes nothing: the first pass leaves the string whitespace-
collapsed, every keyword occurrence already capitalized, and no new keyword
occurrences or word boundaries are created, so the second pass is the
identity on the first pass's output. -/
theorem C10_format_idempotent (q : String) :
    _format_sql_query (_format_sql_query q) = _format_sql_query q := by
  unfold _format_sql_query
  have hdata : (String.mk (capitalizeKeywords (collapseWs q.data))).data =
      capitalizeKeywords (collapseWs q.data) := rfl
  rw [hdata]
  have h1 : collapseWs (capitalizeKeywords (collapseWs q.data)) =
      capitalizeKeywords (collapseWs q.data) :=
    collapseWs_fixsim (capitalizeKeywords_sim (collapseWs q.data)) (collapseWs_idem q.data)
  rw [h1, capitalizeKeywords_idem]
